import Mathlib

/-!
# Verification of the littlejohn acquisition pipeline

A shallow embedding of the core of `littlejohn` (a Rust terminal client that
aggregates torrent-site search results, resolves magnets through the
Real-Debrid API and manages bulk downloads), together with proofs and
refutations of the specification claims about it.

Conventions used throughout:

* Rust `Vec<T>` becomes `List T`; `Option<T>` becomes `Option T`;
  `Result<T, E>` (`anyhow::Result`) becomes `Except RdErr T` with one
  constructor per distinct `anyhow!` site, or `Except String T` where the
  error is just a message.
* Network and file-system effects are passed in as explicit oracles (the
  outcome of the n-th poll, the outcome of unrestricting a given link, the
  outcome of each chunk read/write), and remote side effects performed by
  the code (polls, sleeps, delete calls, unrestrict calls, file writes)
  are returned as explicit traces so that claims about them can be stated.
* Rust machine integers that never overflow in the modelled code paths
  (`u32`/`u64` indices, byte counts, seeder counts as `i64`) become
  `Nat`/`Int`; `f64` quantities (speeds, percentages) become `Rat`, the
  arithmetic performed on them being exact in every modelled expression.
* `Vec::sort_by(comparator)` (a stable sort) is embedded as the
  comparator-based insertion sort `sortByC`, which is stable by
  construction: an element is inserted *before* the first element it does
  not strictly exceed, so elements comparing `eq` keep their order.
-/

namespace LittleJohn

/-! ## Comparators: Rust `Ord::cmp` on integers -/

/-- Rust `i64::cmp` / `Ord::cmp` on integers. -/
def cmpInt (a b : Int) : Ordering :=
  if a < b then Ordering.lt else if a = b then Ordering.eq else Ordering.gt

/-- Rust `usize::cmp` on unsigned integers. -/
def cmpNat (a b : Nat) : Ordering :=
  if a < b then Ordering.lt else if a = b then Ordering.eq else Ordering.gt

theorem cmpInt_eq_iff {a b : Int} : cmpInt a b = Ordering.eq ↔ a = b := by
  unfold cmpInt
  split
  · constructor
    · intro h; cases h
    · intro h; omega
  · split
    · simp_all
    · constructor
      · intro h; cases h
      · intro h; omega

theorem cmpInt_gt_iff {a b : Int} : cmpInt a b = Ordering.gt ↔ b < a := by
  unfold cmpInt
  split
  · constructor
    · intro h; cases h
    · intro h; omega
  · split
    · constructor
      · intro h; cases h
      · intro h; omega
    · constructor
      · intro _; omega
      · intro _; rfl

theorem cmpNat_eq_iff {a b : Nat} : cmpNat a b = Ordering.eq ↔ a = b := by
  unfold cmpNat
  split
  · constructor
    · intro h; cases h
    · intro h; omega
  · split
    · simp_all
    · constructor
      · intro h; cases h
      · intro h; omega

theorem cmpNat_gt_iff {a b : Nat} : cmpNat a b = Ordering.gt ↔ b < a := by
  unfold cmpNat
  split
  · constructor
    · intro h; cases h
    · intro h; omega
  · split
    · constructor
      · intro h; cases h
      · intro h; omega
    · constructor
      · intro _; omega
      · intro _; rfl

/-! ## Stable comparator sort (embedding of Rust `Vec::sort_by`) -/

/-- Insert `x` into `l` just before the first element `y` with
`c x y ≠ .gt`.  This is the insertion step of a stable sort: an element
never moves past one it compares `eq` with. -/
def insertC (c : α → α → Ordering) (x : α) : List α → List α
  | [] => [x]
  | y :: ys => if c x y = Ordering.gt then y :: insertC c x ys else x :: y :: ys

/-- Stable sort by a Rust-style comparator, the embedding of
`Vec::sort_by(c)`. -/
def sortByC (c : α → α → Ordering) : List α → List α
  | [] => []
  | x :: xs => insertC c x (sortByC c xs)

theorem insertC_nil (c : α → α → Ordering) (x : α) : insertC c x [] = [x] := rfl

theorem insertC_cons (c : α → α → Ordering) (x y : α) (ys : List α) :
    insertC c x (y :: ys) =
      if c x y = Ordering.gt then y :: insertC c x ys else x :: y :: ys := rfl

theorem insertC_ne_nil (c : α → α → Ordering) (x : α) (l : List α) :
    insertC c x l ≠ [] := by
  cases l with
  | nil => simp [insertC]
  | cons y ys =>
    rw [insertC_cons]
    split <;> simp

theorem sortByC_eq_nil_iff (c : α → α → Ordering) (l : List α) :
    sortByC c l = [] ↔ l = [] := by
  cases l with
  | nil => simp [sortByC]
  | cons x xs =>
    simp only [sortByC]
    constructor
    · intro h
      exact absurd h (insertC_ne_nil c x (sortByC c xs))
    · intro h; cases h

/-- Properties a Rust comparator produced by `Ord::cmp` on a key enjoys,
as needed for the sorting lemmas: `gt` and `lt` are mutually converse,
and both `gt` and its negation are transitive. -/
structure LawfulCmp (c : α → α → Ordering) : Prop where
  gt_asymm : ∀ x y, c x y = Ordering.gt → c y x = Ordering.lt
  lt_asymm : ∀ x y, c x y = Ordering.lt → c y x = Ordering.gt
  gt_trans : ∀ x y z, c x y = Ordering.gt → c y z = Ordering.gt → c x z = Ordering.gt
  le_trans : ∀ x y z, c x y ≠ Ordering.gt → c y z ≠ Ordering.gt → c x z ≠ Ordering.gt

theorem mem_insertC (c : α → α → Ordering) (x z : α) (l : List α) :
    z ∈ insertC c x l ↔ z = x ∨ z ∈ l := by
  induction l with
  | nil => simp [insertC]
  | cons y ys ih =>
    rw [insertC_cons]
    split
    · simp only [List.mem_cons, ih]
      tauto
    · simp only [List.mem_cons]

/-- If `x` does not strictly exceed any element of `l`, insertion puts it
at the front. -/
theorem insertC_eq_cons (c : α → α → Ordering) (x : α) (l : List α)
    (h : ∀ z ∈ l, c x z ≠ Ordering.gt) : insertC c x l = x :: l := by
  cases l with
  | nil => rfl
  | cons y ys =>
    rw [insertC_cons, if_neg (h y (List.mem_cons_self y ys))]

theorem pairwise_insertC (c : α → α → Ordering) (hc : LawfulCmp c) (x : α)
    (l : List α) (hl : l.Pairwise (fun a b => c a b ≠ Ordering.gt)) :
    (insertC c x l).Pairwise (fun a b => c a b ≠ Ordering.gt) := by
  induction l with
  | nil => simp [insertC]
  | cons y ys ih =>
    rcases List.pairwise_cons.mp hl with ⟨hy, hys⟩
    rw [insertC_cons]
    split
    · rename_i hxy
      refine List.pairwise_cons.mpr ⟨?_, ih hys⟩
      intro z hz
      rcases (mem_insertC c x z ys).mp hz with h | h
      · rw [h, hc.gt_asymm x y hxy]
        intro hcon
        cases hcon
      · exact hy z h
    · rename_i hxy
      refine List.pairwise_cons.mpr ⟨?_, hl⟩
      intro z hz
      rcases List.mem_cons.mp hz with h | h
      · subst h; exact hxy
      · exact hc.le_trans x y z hxy (hy z h)

theorem pairwise_sortByC (c : α → α → Ordering) (hc : LawfulCmp c) (l : List α) :
    (sortByC c l).Pairwise (fun a b => c a b ≠ Ordering.gt) := by
  induction l with
  | nil => simp [sortByC]
  | cons x xs ih => exact pairwise_insertC c hc x (sortByC c xs) ih

theorem filter_insertC (c : α → α → Ordering) (hc : LawfulCmp c) (p : α → Bool)
    (x : α) (l : List α) (hl : l.Pairwise (fun a b => c a b ≠ Ordering.gt)) :
    (insertC c x l).filter p =
      if p x then insertC c x (l.filter p) else l.filter p := by
  induction l with
  | nil =>
    simp only [insertC, List.filter]
    cases p x <;> simp [insertC]
  | cons y ys ih =>
    rcases List.pairwise_cons.mp hl with ⟨hy, hys⟩
    rw [insertC_cons]
    split
    · rename_i hxy
      rw [List.filter_cons, List.filter_cons, ih hys]
      cases hpy : p y <;> cases hpx : p x <;>
        simp [hpy, hpx, insertC_cons, hxy]
    · rename_i hxy
      have hstop : ∀ z ∈ (y :: ys).filter p, c x z ≠ Ordering.gt := by
        intro z hz
        rcases List.mem_cons.mp (List.mem_of_mem_filter hz) with h | h
        · rw [h]; exact hxy
        · exact hc.le_trans x y z hxy (hy z h)
      rw [List.filter_cons, insertC_eq_cons c x _ hstop]

/-- Filtering commutes with a stable sort: selecting a sub-list after
sorting equals sorting the selected sub-list. -/
theorem filter_sortByC (c : α → α → Ordering) (hc : LawfulCmp c) (p : α → Bool)
    (l : List α) : (sortByC c l).filter p = sortByC c (l.filter p) := by
  induction l with
  | nil => simp [sortByC]
  | cons x xs ih =>
    simp only [sortByC]
    rw [filter_insertC c hc p x (sortByC c xs) (pairwise_sortByC c hc xs), ih,
      List.filter_cons]
    rcases hpx : p x with _ | _
    · simp [sortByC]
    · simp [sortByC]

/-- Two insertions by the same comparator commute when the elements are
not tied. -/
theorem insertC_swap (c : α → α → Ordering) (hc : LawfulCmp c) (x y : α)
    (hxy : c x y = Ordering.gt) (l : List α) :
    insertC c x (insertC c y l) = insertC c y (insertC c x l) := by
  have hyx : c y x ≠ Ordering.gt := by
    rw [hc.gt_asymm x y hxy]
    decide
  induction l with
  | nil =>
    show insertC c x [y] = insertC c y [x]
    rw [insertC_cons, if_pos hxy, insertC_cons, if_neg hyx]
    rfl
  | cons z zs ih =>
    rw [insertC_cons (c := c) (x := y) (y := z),
      insertC_cons (c := c) (x := x) (y := z)]
    by_cases hyz : c y z = Ordering.gt
    · have hxz : c x z = Ordering.gt := hc.gt_trans x y z hxy hyz
      rw [if_pos hyz, if_pos hxz,
        insertC_cons (c := c) (x := x) (y := z), if_pos hxz,
        insertC_cons (c := c) (x := y) (y := z), if_pos hyz, ih]
    · rw [if_neg hyz]
      by_cases hxz : c x z = Ordering.gt
      · rw [if_pos hxz,
          insertC_cons (c := c) (x := x) (y := y), if_pos hxy,
          insertC_cons (c := c) (x := x) (y := z), if_pos hxz,
          insertC_cons (c := c) (x := y) (y := z), if_neg hyz]
      · rw [if_neg hxz,
          insertC_cons (c := c) (x := x) (y := y), if_pos hxy,
          insertC_cons (c := c) (x := x) (y := z), if_neg hxz,
          insertC_cons (c := c) (x := y) (y := x), if_neg hyx]

/-- As `insertC_swap`, for any non-tied pair. -/
theorem insertC_swap_of_ne (c : α → α → Ordering) (hc : LawfulCmp c) (x y : α)
    (hxy : c x y ≠ Ordering.eq) (l : List α) :
    insertC c x (insertC c y l) = insertC c y (insertC c x l) := by
  rcases h : c x y with _ | _ | _
  · exact (insertC_swap c hc y x (hc.lt_asymm x y h) l).symm
  · exact absurd h hxy
  · exact insertC_swap c hc x y h l

/-- Key stability lemma: pre-inserting an element by a comparator `c'`
that is refined by `c` (every `c`-tie is a `c'`-tie) does not change the
result of a subsequent `c`-sort compared to consing the element. -/
theorem sortByC_insertC (c c' : α → α → Ordering) (hc : LawfulCmp c)
    (h : ∀ a b, c a b = Ordering.eq → c' a b = Ordering.eq) (x : α) (l : List α) :
    sortByC c (insertC c' x l) = insertC c x (sortByC c l) := by
  induction l with
  | nil => rfl
  | cons y ys ih =>
    rw [insertC_cons]
    split
    · rename_i hxy
      have hne : c x y ≠ Ordering.eq := by
        intro hcon
        rw [h x y hcon] at hxy
        cases hxy
      show insertC c y (sortByC c (insertC c' x ys)) =
        insertC c x (insertC c y (sortByC c ys))
      rw [ih, insertC_swap_of_ne c hc x y hne (sortByC c ys)]
    · rfl

/-- A stable sort by a refining comparator `c` absorbs a preceding stable
sort by a comparator `c'` coarser on ties: sorting by seeders and then by
(priority, seeders) equals sorting once by (priority, seeders). -/
theorem sortByC_sortByC (c c' : α → α → Ordering) (hc : LawfulCmp c)
    (h : ∀ a b, c a b = Ordering.eq → c' a b = Ordering.eq) (l : List α) :
    sortByC c (sortByC c' l) = sortByC c l := by
  induction l with
  | nil => rfl
  | cons x xs ih =>
    show sortByC c (insertC c' x (sortByC c' xs)) = _
    rw [sortByC_insertC c c' hc h x (sortByC c' xs), ih]
    rfl

/-! ## Scrapers (`src/scrapers/mod.rs`) -/

/-- `TorrentResult` from `src/scrapers/mod.rs`. -/
structure TorrentResult where
  name : String
  size : String
  seeders : Int
  leechers : Int
  magnet : String
  source : String
  url : Option String
  category : Option String
deriving DecidableEq, Repr

/-- `SCRAPERS` from `src/scrapers/mod.rs`: the registered adapters, in
registration order. -/
def SCRAPERS : List String := ["1337x", "tpb", "bitsearch", "yts", "ilcorsaronero"]

/-- One adapter's outcome: `None` is a fetch/parse failure, `some l` a
successful (possibly empty) result list. -/
def AdapterOutcome := Option (List TorrentResult)

/-- The result-collection step of `search_all`: a successful non-empty
list is appended (`results.extend`), an empty success and a failure
contribute nothing. -/
def collectOutcome (o : Option (List TorrentResult)) : List TorrentResult :=
  match o with
  | none => []
  | some r => if r.isEmpty then [] else r

/-- The comparator of `search_all`'s final sort:
`|a, b| b.seeders.cmp(&a.seeders)` (seeders descending). -/
def cSeed (a b : TorrentResult) : Ordering := cmpInt b.seeders a.seeders

/-- `search_all` from `src/scrapers/mod.rs`, over the five adapter
outcomes: concatenate the successful non-empty lists in registration
order (1337x, tpb, bitsearch, yts, ilcorsaronero), then stable-sort by
seeders descending.  The adapters run concurrently but `tokio::join!`
returns their outcomes positionally, so the merge is deterministic in
registration order. -/
def search_all (o1337x otpb obitsearch oyts oilcorsaronero :
    Option (List TorrentResult)) : List TorrentResult :=
  sortByC cSeed
    (collectOutcome o1337x ++ collectOutcome otpb ++ collectOutcome obitsearch ++
      collectOutcome oyts ++ collectOutcome oilcorsaronero)

/-! ## The caller-side pipeline (`src/main.rs`, `handle_search_keys`) -/

/-- `SOURCE_PRIORITY` from `src/main.rs`. -/
def SOURCE_PRIORITY : List String :=
  ["yts", "ilcorsaronero", "tpb", "bitsearch", "1337x", "extto"]

/-- `SOURCE_PRIORITY.iter().position(|&s| s == source).unwrap_or(999)`. -/
def priorityOf (source : String) : Nat :=
  (SOURCE_PRIORITY.findIdx? (fun s => s == source)).getD 999

/-- The caller's two-key comparator from `handle_search_keys`: source
priority ascending, then seeders descending. -/
def cPrio (a b : TorrentResult) : Ordering :=
  match cmpNat (priorityOf a.source) (priorityOf b.source) with
  | Ordering.eq => cmpInt b.seeders a.seeders
  | o => o

/-- The search pipeline as implemented: `search_all` (which ends in a
stable sort by seeders descending), then the caller's
`retain(|r| enabled_sources.contains(&r.source))` and stable sort by
(priority, seeders descending).  `enabled` is the characteristic
function of the enabled-source set. -/
def searchPipeline (enabled : String → Bool)
    (o1337x otpb obitsearch oyts oilcorsaronero : Option (List TorrentResult)) :
    List TorrentResult :=
  sortByC cPrio
    ((search_all o1337x otpb obitsearch oyts oilcorsaronero).filter
      (fun r => enabled r.source))

/-- Modelled from the spec's merge policy wording, for comparison with
`searchPipeline`: concatenate all successful lists in adapter-registration
order, filter by the enabled-source set, then apply one stable two-key
sort (priority, then seeders descending). -/
def specMergePolicy (enabled : String → Bool)
    (o1337x otpb obitsearch oyts oilcorsaronero : Option (List TorrentResult)) :
    List TorrentResult :=
  sortByC cPrio
    ((collectOutcome o1337x ++ collectOutcome otpb ++ collectOutcome obitsearch ++
        collectOutcome oyts ++ collectOutcome oilcorsaronero).filter
      (fun r => enabled r.source))

theorem cmpInt_lt_iff {a b : Int} : cmpInt a b = Ordering.lt ↔ a < b := by
  unfold cmpInt
  split
  · simp_all
  · split
    · constructor
      · intro h; cases h
      · intro h; omega
    · constructor
      · intro h; cases h
      · intro h; omega

theorem cmpNat_lt_iff {a b : Nat} : cmpNat a b = Ordering.lt ↔ a < b := by
  unfold cmpNat
  split
  · simp_all
  · split
    · constructor
      · intro h; cases h
      · intro h; omega
    · constructor
      · intro h; cases h
      · intro h; omega

theorem lawful_cSeed : LawfulCmp cSeed := by
  constructor
  · intro x y h
    unfold cSeed at h ⊢
    rw [cmpInt_gt_iff] at h
    rw [cmpInt_lt_iff]
    exact h
  · intro x y h
    unfold cSeed at h ⊢
    rw [cmpInt_lt_iff] at h
    rw [cmpInt_gt_iff]
    exact h
  · intro x y z h1 h2
    unfold cSeed at h1 h2 ⊢
    rw [cmpInt_gt_iff] at h1 h2 ⊢
    omega
  · intro x y z h1 h2
    unfold cSeed at h1 h2 ⊢
    rw [Ne, cmpInt_gt_iff] at h1 h2 ⊢
    omega

theorem cPrio_gt_iff {a b : TorrentResult} :
    cPrio a b = Ordering.gt ↔
      priorityOf b.source < priorityOf a.source ∨
        (priorityOf a.source = priorityOf b.source ∧ a.seeders < b.seeders) := by
  unfold cPrio
  rcases h : cmpNat (priorityOf a.source) (priorityOf b.source) with _ | _ | _
  · rw [cmpNat_lt_iff] at h
    constructor
    · intro hcon; cases hcon
    · intro hcon; omega
  · rw [cmpNat_eq_iff] at h
    rw [cmpInt_gt_iff]
    constructor
    · intro h2; right; exact ⟨h, h2⟩
    · intro h2
      rcases h2 with h2 | h2
      · omega
      · exact h2.2
  · rw [cmpNat_gt_iff] at h
    constructor
    · intro _; left; exact h
    · intro _; rfl

theorem cPrio_lt_iff {a b : TorrentResult} :
    cPrio a b = Ordering.lt ↔
      priorityOf a.source < priorityOf b.source ∨
        (priorityOf a.source = priorityOf b.source ∧ b.seeders < a.seeders) := by
  unfold cPrio
  rcases h : cmpNat (priorityOf a.source) (priorityOf b.source) with _ | _ | _
  · rw [cmpNat_lt_iff] at h
    constructor
    · intro _; left; exact h
    · intro _; rfl
  · rw [cmpNat_eq_iff] at h
    rw [cmpInt_lt_iff]
    constructor
    · intro h2; right; exact ⟨h, h2⟩
    · intro h2
      rcases h2 with h2 | h2
      · omega
      · exact h2.2
  · rw [cmpNat_gt_iff] at h
    constructor
    · intro hcon; cases hcon
    · intro hcon; omega

theorem cPrio_eq_iff {a b : TorrentResult} :
    cPrio a b = Ordering.eq ↔
      priorityOf a.source = priorityOf b.source ∧ a.seeders = b.seeders := by
  rcases h : cPrio a b with _ | _ | _
  · rw [cPrio_lt_iff] at h
    constructor
    · intro hcon; cases hcon
    · intro hcon; omega
  · rw [show (Ordering.eq = Ordering.eq) ↔ True by simp]
    have h2 := h
    unfold cPrio at h2
    rcases h3 : cmpNat (priorityOf a.source) (priorityOf b.source) with _ | _ | _
    · rw [h3] at h2; cases h2
    · rw [h3] at h2
      rw [cmpNat_eq_iff] at h3
      rw [cmpInt_eq_iff] at h2
      simp only [true_iff]
      omega
    · rw [h3] at h2; cases h2
  · rw [cPrio_gt_iff] at h
    constructor
    · intro hcon; cases hcon
    · intro hcon; omega

theorem lawful_cPrio : LawfulCmp cPrio := by
  constructor
  · intro x y h
    rw [cPrio_gt_iff] at h
    rw [cPrio_lt_iff]
    rcases h with h | h
    · left; exact h
    · right; omega
  · intro x y h
    rw [cPrio_lt_iff] at h
    rw [cPrio_gt_iff]
    rcases h with h | h
    · left; exact h
    · right; omega
  · intro x y z h1 h2
    rw [cPrio_gt_iff] at h1 h2 ⊢
    rcases h1 with h1 | h1 <;> rcases h2 with h2 | h2
    · left; omega
    · left; omega
    · left; omega
    · right; omega
  · intro x y z h1 h2
    rw [Ne, cPrio_gt_iff] at h1 h2 ⊢
    push_neg at h1 h2 ⊢
    constructor
    · omega
    · intro h; omega

theorem cPrio_eq_imp_cSeed_eq (a b : TorrentResult)
    (h : cPrio a b = Ordering.eq) : cSeed a b = Ordering.eq := by
  rw [cPrio_eq_iff] at h
  rw [cSeed, cmpInt_eq_iff]
  omega

theorem collectOutcome_eq_nil_iff (o : Option (List TorrentResult)) :
    collectOutcome o = [] ↔ o = none ∨ o = some [] := by
  cases o with
  | none => simp [collectOutcome]
  | some r =>
    cases r with
    | nil => simp [collectOutcome]
    | cons x xs => simp [collectOutcome]

/-- C2: the implemented pipeline — `search_all`'s stable sort by seeders
descending, then the caller's retain on enabled sources and stable sort
by (source priority, seeders descending) — delivers exactly the list
obtained by concatenating the successful adapters' lists in registration
order, filtering by the enabled-source set, and applying one stable
two-key sort with primary key source priority and secondary key seeder
count descending. -/
theorem searchPipeline_eq_specMergePolicy (enabled : String → Bool)
    (o1337x otpb obitsearch oyts oilcorsaronero : Option (List TorrentResult)) :
    searchPipeline enabled o1337x otpb obitsearch oyts oilcorsaronero =
      specMergePolicy enabled o1337x otpb obitsearch oyts oilcorsaronero := by
  unfold searchPipeline specMergePolicy search_all
  rw [filter_sortByC cSeed lawful_cSeed]
  rw [sortByC_sortByC cPrio cSeed lawful_cPrio cPrio_eq_imp_cSeed_eq]

/-- C5: a failing adapter (outcome `none`) contributes exactly what an
empty success contributes — it neither aborts `search_all` nor discards
the other adapters' results — and `search_all` returns the empty list
(an empty list, not an error: its return type carries no error case)
precisely when every adapter failed or returned an empty list. -/
theorem search_all_failure_tolerant
    (o1 o2 o3 o4 o5 : Option (List TorrentResult)) :
    (search_all none o2 o3 o4 o5 = search_all (some []) o2 o3 o4 o5) ∧
    (search_all o1 none o3 o4 o5 = search_all o1 (some []) o3 o4 o5) ∧
    (search_all o1 o2 none o4 o5 = search_all o1 o2 (some []) o4 o5) ∧
    (search_all o1 o2 o3 none o5 = search_all o1 o2 o3 (some []) o5) ∧
    (search_all o1 o2 o3 o4 none = search_all o1 o2 o3 o4 (some [])) ∧
    (search_all o1 o2 o3 o4 o5 = [] ↔
      (o1 = none ∨ o1 = some []) ∧ (o2 = none ∨ o2 = some []) ∧
      (o3 = none ∨ o3 = some []) ∧ (o4 = none ∨ o4 = some []) ∧
      (o5 = none ∨ o5 = some [])) := by
  refine ⟨rfl, rfl, rfl, rfl, rfl, ?_⟩
  unfold search_all
  rw [sortByC_eq_nil_iff]
  simp only [List.append_eq_nil, collectOutcome_eq_nil_iff]
  tauto

/-! ## Real-Debrid resolution client (`src/realdebrid.rs`)

The client's network calls are passed in as oracles: `add` is the outcome
of `add_magnet`, `poll n` the outcome of the n-th `get_torrent_info`
call, `u link` the outcome of `unrestrict_link(link)`.  Oracle errors are
strings (the `anyhow` message); each distinct `anyhow!` site inside the
modelled functions gets its own `RdErr` constructor so the error paths
stay distinguishable. -/

/-- The raw per-file record of the torrent-info response
(`ApiTorrentFile` in `src/realdebrid.rs`). -/
structure ApiTorrentFile where
  id : Nat
  path : String
  bytes : Nat
  selected : Option Nat
deriving DecidableEq, Repr

/-- `TorrentFile` from `src/realdebrid.rs`. -/
structure TorrentFile where
  id : Nat
  path : String
  bytes : Nat
  selected : Bool
deriving DecidableEq, Repr

/-- `TorrentInfo` from `src/realdebrid.rs` (the fields the modelled code
reads; `progress`/`speed`/`seeders` feed only the status-callback text). -/
structure TorrentInfo where
  status : String
  files : Option (List ApiTorrentFile)
  links : Option (List String)
  progress : Option Rat
  speed : Option Nat
  seeders : Option Nat
deriving DecidableEq, Repr

/-- Typed errors of the resolution client: one constructor per
`anyhow!` site in the modelled functions, plus `api` for errors
propagated from the HTTP layer. -/
inductive RdErr where
  | api (msg : String)
  | invalidMagnet
  | addTimeout
  | selectTimeout
  | noLinks
  | torrentFailed (status : String)
deriving DecidableEq, Repr

/-- The conversion applied in `get_torrent_files` on success:
`selected: f.selected.unwrap_or(0) == 1`. -/
def convertFile (f : ApiTorrentFile) : TorrentFile :=
  ⟨f.id, f.path, f.bytes, f.selected.getD 0 == 1⟩

/-- Result and remote-effect trace of one `get_torrent_files` call. -/
structure GtfOutcome where
  result : Except RdErr (String × List TorrentFile)
  polls : Nat
  sleepSeconds : Nat
  deleted : Bool
deriving Repr

/-- The `for _ in 0..30` polling loop of `get_torrent_files`.  `i` is the
index of the next poll, `fuel` the remaining attempts; each retry sleeps
exactly one second (`sleepSeconds` counts them). -/
def gtfLoop (poll : Nat → Except String TorrentInfo) (tid : String) :
    Nat → Nat → GtfOutcome
  | _, 0 => ⟨Except.error RdErr.addTimeout, 0, 0, true⟩
  | i, fuel + 1 =>
    match poll i with
    | Except.error e => ⟨Except.error (RdErr.api e), 1, 0, false⟩
    | Except.ok info =>
      if info.status = "waiting_files_selection" then
        ⟨Except.ok (tid, (info.files.getD []).map convertFile), 1, 0, false⟩
      else if info.status = "magnet_error" then
        ⟨Except.error RdErr.invalidMagnet, 1, 0, true⟩
      else
        let r := gtfLoop poll tid (i + 1) fuel
        ⟨r.result, r.polls + 1, r.sleepSeconds + 1, r.deleted⟩

/-- `get_torrent_files` from `src/realdebrid.rs`: add the magnet, then
poll the job status up to 30 times at a 1-second interval. -/
def get_torrent_files (add : Except String String)
    (poll : Nat → Except String TorrentInfo) : GtfOutcome :=
  match add with
  | Except.error e => ⟨Except.error (RdErr.api e), 0, 0, false⟩
  | Except.ok tid => gtfLoop poll tid 0 30

theorem gtfLoop_polls_le (poll : Nat → Except String TorrentInfo)
    (tid : String) : ∀ (fuel i : Nat), (gtfLoop poll tid i fuel).polls ≤ fuel := by
  intro fuel
  induction fuel with
  | zero => intro i; simp [gtfLoop]
  | succ f ih =>
    intro i
    unfold gtfLoop
    split
    · simp
    · split
      · simp
      · split
        · simp
        · have := ih (i + 1)
          simp only
          omega

theorem gtfLoop_sleeps_le_polls (poll : Nat → Except String TorrentInfo)
    (tid : String) :
    ∀ (fuel i : Nat),
      (gtfLoop poll tid i fuel).sleepSeconds ≤ (gtfLoop poll tid i fuel).polls := by
  intro fuel
  induction fuel with
  | zero => intro i; simp [gtfLoop]
  | succ f ih =>
    intro i
    unfold gtfLoop
    split
    · simp
    · split
      · simp
      · split
        · simp
        · have := ih (i + 1)
          simp only
          omega

theorem gtfLoop_ok (poll : Nat → Except String TorrentInfo) (tid : String) :
    ∀ (fuel i : Nat) (tid' : String) (files : List TorrentFile),
      (gtfLoop poll tid i fuel).result = Except.ok (tid', files) →
      tid' = tid ∧ ∃ n, i ≤ n ∧ n < i + fuel ∧ ∃ info, poll n = Except.ok info ∧
        info.status = "waiting_files_selection" ∧
        files = (info.files.getD []).map convertFile := by
  intro fuel
  induction fuel with
  | zero => intro i tid' files h; cases h
  | succ f ih =>
    intro i tid' files h
    unfold gtfLoop at h
    rcases hp : poll i with e | info
    · rw [hp] at h; cases h
    · rw [hp] at h
      simp only at h
      by_cases h1 : info.status = "waiting_files_selection"
      · rw [if_pos h1] at h
        simp only [Except.ok.injEq, Prod.mk.injEq] at h
        refine ⟨h.1.symm, i, Nat.le_refl i, by omega, info, hp, h1, h.2.symm⟩
      · rw [if_neg h1] at h
        by_cases h2 : info.status = "magnet_error"
        · rw [if_pos h2] at h; cases h
        · rw [if_neg h2] at h
          simp only at h
          rcases ih (i + 1) tid' files h with ⟨ht, n, hn1, hn2, hrest⟩
          exact ⟨ht, n, by omega, by omega, hrest⟩

theorem gtfLoop_invalidMagnet (poll : Nat → Except String TorrentInfo)
    (tid : String) :
    ∀ (fuel i : Nat),
      (gtfLoop poll tid i fuel).result = Except.error RdErr.invalidMagnet →
      (gtfLoop poll tid i fuel).deleted = true := by
  intro fuel
  induction fuel with
  | zero => intro i h; cases h
  | succ f ih =>
    intro i
    unfold gtfLoop
    rcases hp : poll i with e | info
    · intro h; cases h
    · dsimp only
      by_cases h1 : info.status = "waiting_files_selection"
      · rw [if_pos h1]; intro h; cases h
      · rw [if_neg h1]
        by_cases h2 : info.status = "magnet_error"
        · rw [if_pos h2]; intro _; rfl
        · rw [if_neg h2]
          show (gtfLoop poll tid (i + 1) f).result = _ →
            (gtfLoop poll tid (i + 1) f).deleted = true
          exact ih (i + 1)

theorem gtfLoop_timeout (poll : Nat → Except String TorrentInfo)
    (tid : String) :
    ∀ (fuel i : Nat),
      (gtfLoop poll tid i fuel).result = Except.error RdErr.addTimeout →
      (gtfLoop poll tid i fuel).deleted = true ∧
        (gtfLoop poll tid i fuel).polls = fuel ∧
        (gtfLoop poll tid i fuel).sleepSeconds = fuel := by
  intro fuel
  induction fuel with
  | zero => intro i _; exact ⟨rfl, rfl, rfl⟩
  | succ f ih =>
    intro i
    unfold gtfLoop
    rcases hp : poll i with e | info
    · intro h; cases h
    · dsimp only
      by_cases h1 : info.status = "waiting_files_selection"
      · rw [if_pos h1]; intro h; cases h
      · rw [if_neg h1]
        by_cases h2 : info.status = "magnet_error"
        · rw [if_pos h2]; intro h; cases h
        · rw [if_neg h2]
          show (gtfLoop poll tid (i + 1) f).result = _ →
            (gtfLoop poll tid (i + 1) f).deleted = true ∧
              (gtfLoop poll tid (i + 1) f).polls + 1 = f + 1 ∧
              (gtfLoop poll tid (i + 1) f).sleepSeconds + 1 = f + 1
          intro h
          rcases ih (i + 1) h with ⟨hd, hpo, hs⟩
          exact ⟨hd, by omega, by omega⟩

/-- C4: a magnet submission performs at most 30 status polls with one
1-second sleep per retry; it returns the (jobId, file list) pair exactly
on a `waiting_files_selection` poll; a `magnet_error` status yields the
invalid-magnet error after a best-effort remote delete (within one poll
when it is the first status seen); and exhausting the 30-attempt budget
yields the timeout error after a best-effort remote delete. -/
theorem get_torrent_files_spec (add : Except String String)
    (poll : Nat → Except String TorrentInfo) :
    (get_torrent_files add poll).polls ≤ 30 ∧
    (get_torrent_files add poll).sleepSeconds ≤ (get_torrent_files add poll).polls ∧
    (∀ tid files,
      (get_torrent_files add poll).result = Except.ok (tid, files) →
      add = Except.ok tid ∧ ∃ n, n < 30 ∧ ∃ info, poll n = Except.ok info ∧
        info.status = "waiting_files_selection" ∧
        files = (info.files.getD []).map convertFile) ∧
    ((get_torrent_files add poll).result = Except.error RdErr.invalidMagnet →
      (get_torrent_files add poll).deleted = true) ∧
    ((get_torrent_files add poll).result = Except.error RdErr.addTimeout →
      (get_torrent_files add poll).deleted = true ∧
        (get_torrent_files add poll).polls = 30 ∧
        (get_torrent_files add poll).sleepSeconds = 30) ∧
    (∀ tid info, add = Except.ok tid → poll 0 = Except.ok info →
      info.status = "magnet_error" →
      (get_torrent_files add poll).result = Except.error RdErr.invalidMagnet ∧
        (get_torrent_files add poll).deleted = true ∧
        (get_torrent_files add poll).polls = 1) := by
  rcases add with e | tid
  · refine ⟨by simp [get_torrent_files], by simp [get_torrent_files], ?_, ?_, ?_, ?_⟩
    · intro tid files h
      simp [get_torrent_files] at h
    · intro h
      simp [get_torrent_files] at h
    · intro h
      simp [get_torrent_files] at h
    · intro tid info h
      cases h
  · have hunfold : get_torrent_files (Except.ok tid) poll = gtfLoop poll tid 0 30 := rfl
    rw [hunfold]
    refine ⟨gtfLoop_polls_le poll tid 30 0, gtfLoop_sleeps_le_polls poll tid 30 0,
      ?_, gtfLoop_invalidMagnet poll tid 30 0, gtfLoop_timeout poll tid 30 0, ?_⟩
    · intro tid' files h
      rcases gtfLoop_ok poll tid 30 0 tid' files h with ⟨ht, n, _, hn2, hrest⟩
      subst ht
      exact ⟨rfl, n, by omega, hrest⟩
    · intro tid' info hadd hp0 hstat
      have htid : tid' = tid := by
        cases hadd
        rfl
      subst htid
      have h30 : (30 : Nat) = 29 + 1 := rfl
      rw [h30]
      unfold gtfLoop
      rw [hp0]
      dsimp only
      rw [if_neg (by rw [hstat]; decide), if_pos hstat]
      exact ⟨rfl, rfl, rfl⟩

/-- A concrete poll oracle that always reports `magnet_error`. -/
def pollMagnetError : Nat → Except String TorrentInfo :=
  fun _ => Except.ok ⟨"magnet_error", none, none, none, none, none⟩

theorem get_torrent_files_spec_witness :
    (get_torrent_files (Except.ok "T1") pollMagnetError).result =
      Except.error RdErr.invalidMagnet ∧
    (get_torrent_files (Except.ok "T1") pollMagnetError).deleted = true ∧
    (get_torrent_files (Except.ok "T1") pollMagnetError).polls = 1 :=
  (get_torrent_files_spec (Except.ok "T1") pollMagnetError).2.2.2.2.2 "T1"
    ⟨"magnet_error", none, none, none, none, none⟩ rfl rfl rfl

/-! ## File resolution (`download_selected_files_with_callback`) -/

/-- The sequential unrestrict loop inside the `"downloaded"` branch of
`download_selected_files_with_callback`: call the unrestrict endpoint
once per link in order, accumulate `(filename, download)` pairs, and
abort with the first error (the `?` operator).  The second component
records which links were actually sent to the endpoint, in order. -/
def unrestrictAll (u : String → Except String (String × String)) :
    List String → Except RdErr (List (String × String)) × List String
  | [] => (Except.ok [], [])
  | l :: ls =>
    match u l with
    | Except.error e => (Except.error (RdErr.api e), [l])
    | Except.ok p =>
      match unrestrictAll u ls with
      | (Except.error e, calls) => (Except.error e, l :: calls)
      | (Except.ok ps, calls) => (Except.ok (p :: ps), l :: calls)

/-- Result and trace of one `download_selected_files_with_callback`
call: the returned value, the number of status polls, and the links sent
to the unrestrict endpoint. -/
structure DsfOutcome where
  result : Except RdErr (List (String × String))
  polls : Nat
  calls : List String
deriving Repr

/-- The `while elapsed < 300` polling loop (2-second interval, hence 150
iterations) of `download_selected_files_with_callback`.  The status
callback is a pure side channel (progress text for the UI) and is not
modelled. -/
def dsfLoop (poll : Nat → Except String TorrentInfo)
    (u : String → Except String (String × String)) : Nat → Nat → DsfOutcome
  | _, 0 => ⟨Except.error RdErr.selectTimeout, 0, []⟩
  | i, fuel + 1 =>
    match poll i with
    | Except.error e => ⟨Except.error (RdErr.api e), 1, []⟩
    | Except.ok info =>
      if info.status = "downloaded" then
        if (info.links.getD []).isEmpty then ⟨Except.error RdErr.noLinks, 1, []⟩
        else
          ⟨(unrestrictAll u (info.links.getD [])).1, 1,
            (unrestrictAll u (info.links.getD [])).2⟩
      else if info.status = "error" ∨ info.status = "dead" ∨
          info.status = "magnet_error" then
        ⟨Except.error (RdErr.torrentFailed info.status), 1, []⟩
      else
        let r := dsfLoop poll u (i + 1) fuel
        ⟨r.result, r.polls + 1, r.calls⟩

/-- `download_selected_files_with_callback` from `src/realdebrid.rs`:
select the requested files (`sel` is the outcome of `select_files`),
then poll until the torrent is `"downloaded"` and unrestrict every
reported link in order. -/
def download_selected_files_with_callback (sel : Except String Unit)
    (poll : Nat → Except String TorrentInfo)
    (u : String → Except String (String × String)) : DsfOutcome :=
  match sel with
  | Except.error e => ⟨Except.error (RdErr.api e), 0, []⟩
  | Except.ok _ => dsfLoop poll u 0 150

theorem unrestrictAll_cons_of_err {u : String → Except String (String × String)}
    {l : String} {e : String} (hu : u l = Except.error e) (ls : List String) :
    unrestrictAll u (l :: ls) = (Except.error (RdErr.api e), [l]) := by
  conv_lhs => rw [unrestrictAll]
  rw [hu]

theorem unrestrictAll_cons_of_ok {u : String → Except String (String × String)}
    {l : String} {p : String × String} (hu : u l = Except.ok p) (ls : List String) :
    unrestrictAll u (l :: ls) =
      ((match (unrestrictAll u ls).1 with
        | Except.error e => Except.error e
        | Except.ok ps => Except.ok (p :: ps)), l :: (unrestrictAll u ls).2) := by
  conv_lhs => rw [unrestrictAll]
  rw [hu]
  rcases hr : unrestrictAll u ls with ⟨res, calls⟩
  rcases res with e | ps <;> rfl

theorem unrestrictAll_ok (u : String → Except String (String × String)) :
    ∀ (ls : List String) (ps : List (String × String)),
      (unrestrictAll u ls).1 = Except.ok ps →
      (unrestrictAll u ls).2 = ls ∧
        List.Forall₂ (fun l p => u l = Except.ok p) ls ps := by
  intro ls
  induction ls with
  | nil =>
    intro ps h
    simp only [unrestrictAll, Except.ok.injEq] at h
    subst h
    exact ⟨rfl, List.Forall₂.nil⟩
  | cons l ls ih =>
    intro ps h
    rcases hu : u l with e | p
    · rw [unrestrictAll_cons_of_err hu ls] at h
      cases h
    · rw [unrestrictAll_cons_of_ok hu ls] at h ⊢
      dsimp only at h ⊢
      rcases hr1 : (unrestrictAll u ls).1 with e | ps'
      · rw [hr1] at h; cases h
      · rw [hr1] at h
        dsimp only at h
        have hps : p :: ps' = ps := by
          simpa using h
        rcases ih ps' hr1 with ⟨hcalls, hall⟩
        rw [← hps]
        exact ⟨by rw [hcalls], List.Forall₂.cons hu hall⟩

theorem unrestrictAll_first_error (u : String → Except String (String × String)) :
    ∀ (ls : List String) (k : Nat) (lk : String) (e : String),
      ls[k]? = some lk →
      (∀ j l', j < k → ls[j]? = some l' → ∃ q, u l' = Except.ok q) →
      u lk = Except.error e →
      (unrestrictAll u ls).1 = Except.error (RdErr.api e) ∧
        (unrestrictAll u ls).2 = ls.take (k + 1) := by
  intro ls
  induction ls with
  | nil => intro k lk e hget; cases hget
  | cons l ls ih =>
    intro k lk e hget hbefore hfail
    rcases k with _ | k
    · simp only [List.getElem?_cons_zero, Option.some.injEq] at hget
      subst hget
      rw [unrestrictAll_cons_of_err hfail ls]
      exact ⟨rfl, rfl⟩
    · rcases hbefore 0 l (Nat.succ_pos k) (by simp) with ⟨q, hq⟩
      have hbefore' : ∀ j l', j < k → ls[j]? = some l' → ∃ q, u l' = Except.ok q := by
        intro j l' hj hget'
        exact hbefore (j + 1) l' (by omega) (by simpa using hget')
      rw [List.getElem?_cons_succ] at hget
      rcases ih k lk e hget hbefore' hfail with ⟨h1, h2⟩
      rw [unrestrictAll_cons_of_ok hq ls]
      dsimp only
      rw [h1, h2, List.take_succ_cons]
      exact ⟨rfl, rfl⟩

theorem dsfLoop_ok (poll : Nat → Except String TorrentInfo)
    (u : String → Except String (String × String)) :
    ∀ (fuel i : Nat) (ds : List (String × String)),
      (dsfLoop poll u i fuel).result = Except.ok ds →
      ∃ n, i ≤ n ∧ n < i + fuel ∧ ∃ info, poll n = Except.ok info ∧
        info.status = "downloaded" ∧ (info.links.getD []) ≠ [] ∧
        (unrestrictAll u (info.links.getD [])).1 = Except.ok ds ∧
        (dsfLoop poll u i fuel).calls = (unrestrictAll u (info.links.getD [])).2 := by
  intro fuel
  induction fuel with
  | zero => intro i ds h; cases h
  | succ f ih =>
    intro i ds
    unfold dsfLoop
    rcases hp : poll i with e | info
    · intro h; cases h
    · dsimp only
      by_cases h1 : info.status = "downloaded"
      · rw [if_pos h1]
        by_cases h2 : (info.links.getD []).isEmpty
        · rw [if_pos h2]; intro h; cases h
        · rw [if_neg h2]
          intro h
          refine ⟨i, Nat.le_refl i, by omega, info, hp, h1, ?_, h, rfl⟩
          intro hcon
          rw [hcon] at h2
          exact h2 rfl
      · rw [if_neg h1]
        by_cases h3 : info.status = "error" ∨ info.status = "dead" ∨
            info.status = "magnet_error"
        · rw [if_pos h3]; intro h; cases h
        · rw [if_neg h3]
          show (dsfLoop poll u (i + 1) f).result = _ → _
          intro h
          rcases ih (i + 1) ds h with ⟨n, hn1, hn2, hrest⟩
          exact ⟨n, by omega, by omega, hrest⟩

/-- C3: a successful file-resolution call returns exactly one
`(filename, directUrl)` pair per remote link reported at `"downloaded"`
status, each produced by one unrestrict call, the endpoint being called
once per link in order; the first failing unrestrict call aborts the
whole call with that error (the result then carries zero pairs, never a
partial list, its type having no list in the error case); and a
`"downloaded"` status carrying an empty link list is the `noLinks`
error, not a success with an empty list. -/
theorem download_selected_files_spec (sel : Except String Unit)
    (poll : Nat → Except String TorrentInfo)
    (u : String → Except String (String × String)) :
    (∀ ds, (download_selected_files_with_callback sel poll u).result =
        Except.ok ds →
      ∃ n, n < 150 ∧ ∃ info, poll n = Except.ok info ∧
        info.status = "downloaded" ∧ (info.links.getD []) ≠ [] ∧
        ds.length = (info.links.getD []).length ∧
        (download_selected_files_with_callback sel poll u).calls =
          info.links.getD [] ∧
        List.Forall₂ (fun l p => u l = Except.ok p) (info.links.getD []) ds) ∧
    (∀ (links : List String) (k : Nat) (lk : String) (e : String),
      links[k]? = some lk →
      (∀ j l', j < k → links[j]? = some l' → ∃ q, u l' = Except.ok q) →
      u lk = Except.error e →
      (unrestrictAll u links).1 = Except.error (RdErr.api e)) ∧
    (∀ info, sel = Except.ok () → poll 0 = Except.ok info →
      info.status = "downloaded" → info.links.getD [] = [] →
      (download_selected_files_with_callback sel poll u).result =
        Except.error RdErr.noLinks) := by
  refine ⟨?_, ?_, ?_⟩
  · intro ds h
    rcases sel with e | u'
    · cases h
    · have hunfold : download_selected_files_with_callback (Except.ok u') poll u =
          dsfLoop poll u 0 150 := rfl
      rw [hunfold] at h ⊢
      rcases dsfLoop_ok poll u 150 0 ds h with
        ⟨n, _, hn2, info, hpn, hstat, hne, hok, hcalls⟩
      rcases unrestrictAll_ok u (info.links.getD []) ds hok with ⟨hc2, hall⟩
      refine ⟨n, by omega, info, hpn, hstat, hne, ?_, by rw [hcalls, hc2], hall⟩
      exact (List.Forall₂.length_eq hall).symm
  · intro links k lk e hget hbefore hfail
    exact (unrestrictAll_first_error u links k lk e hget hbefore hfail).1
  · intro info hsel hp0 hstat hlinks
    subst hsel
    have hunfold : download_selected_files_with_callback (Except.ok ()) poll u =
        dsfLoop poll u 0 150 := rfl
    rw [hunfold]
    have h150 : (150 : Nat) = 149 + 1 := rfl
    rw [h150]
    unfold dsfLoop
    rw [hp0]
    dsimp only
    rw [if_pos hstat, if_pos (by rw [hlinks]; rfl)]

/-- A concrete poll oracle that reports `"downloaded"` with no links. -/
def pollDownloadedNoLinks : Nat → Except String TorrentInfo :=
  fun _ => Except.ok ⟨"downloaded", none, some [], none, none, none⟩

theorem download_selected_files_spec_witness :
    (download_selected_files_with_callback (Except.ok ()) pollDownloadedNoLinks
        (fun _ => Except.error "unused")).result = Except.error RdErr.noLinks :=
  (download_selected_files_spec (Except.ok ()) pollDownloadedNoLinks
      (fun _ => Except.error "unused")).2.2
    ⟨"downloaded", none, some [], none, none, none⟩ rfl rfl rfl rfl

/-! ## Session controller (`src/main.rs`)

The `App` model carries exactly the fields read or written by the
embedded handlers (`handle_message`, `handle_downloads_keys`, the
`Error(_)` arm of `handle_key_event`); the remaining `App` fields of the
source (search input, settings buffers, …) are untouched by these
handlers and are omitted.  `HashSet` fields become `Finset`;
`tokio::spawn(start_download(url, dest_path, index, tx))` is modelled by
returning the list of `SpawnedTask` records (the data captured by each
spawned task) alongside the new state. -/

/-- `DownloadStatus` from `src/main.rs`. -/
inductive DownloadStatus where
  | Pending
  | Downloading
  | Completed
  | Failed (reason : String)
  | Cancelled
deriving DecidableEq, Repr

/-- `Download` from `src/main.rs` (paths as strings, `f64` speed as an
exact rational). -/
structure Download where
  url : String
  filename : String
  dest_path : String
  status : DownloadStatus
  total_bytes : Nat
  downloaded_bytes : Nat
  speed : Rat
deriving DecidableEq, Repr

/-- `Download::progress` from `src/main.rs`: guard the zero-total case,
otherwise `downloaded / total * 100` (the `f64` arithmetic embedded as
exact rational arithmetic). -/
def Download.progress (d : Download) : Rat :=
  if d.total_bytes = 0 then 0
  else ((d.downloaded_bytes : Rat) / (d.total_bytes : Rat)) * 100

/-- `AppMode` from `src/main.rs`. -/
inductive AppMode where
  | Setup
  | Settings
  | Search
  | Results
  | FileSelect
  | SourceSelect
  | Downloads
  | Processing
  | Error (msg : String)
deriving DecidableEq, Repr

/-- `AppMessage` from `src/main.rs`. -/
inductive AppMessage where
  | SearchResults (results : List TorrentResult)
  | SearchError (e : String)
  | TorrentFiles (torrent_id : String) (files : List TorrentFile)
  | TorrentError (e : String)
  | DownloadLinks (links : List (String × String))
  | DownloadError (e : String)
  | StatusUpdate (s : String)
  | DownloadProgress (index : Nat) (downloaded : Nat) (total : Nat) (speed : Rat)
  | DownloadComplete (index : Nat)
  | DownloadFailed (index : Nat) (error : String)

/-- The projection of `App` (from `src/main.rs`) touched by the embedded
handlers. -/
structure App where
  mode : AppMode
  status : String
  processing_status : String
  results : List TorrentResult
  selected_index : Nat
  scroll_offset : Nat
  torrent_id : Option String
  files : List TorrentFile
  file_cursor : Nat
  file_scroll_offset : Nat
  selected_files : Finset Nat
  downloads : List Download
  download_cursor : Nat

/-- Apply `f i x` to the element at each index `i`, starting the count at
`start`: the embedding of in-place indexed mutation of a `Vec`
(`get_mut(i)` touches index `i` and leaves the rest). -/
def mapIdxFrom (f : Nat → α → α) : Nat → List α → List α
  | _, [] => []
  | start, x :: xs => f start x :: mapIdxFrom f (start + 1) xs

/-- The video extensions of the `TorrentFiles` arm of `handle_message`. -/
def videoExts : List String := ["mkv", "mp4", "avi", "mov", "wmv", "flv", "webm", "m4v"]

/-- The archive extensions of the `TorrentFiles` arm of `handle_message`. -/
def archiveExts : List String := ["rar", "zip", "7z", "tar", "gz"]

/-- Rust `str::to_lowercase`, over the character list (the inputs the
filter compares are ASCII, where per-character lowering coincides with
Rust's Unicode lowering). -/
def lowerString (s : String) : String := ⟨s.data.map Char.toLower⟩

/-- Rust `str::ends_with`. -/
def strEndsWith (s suffix : String) : Bool := suffix.data.isSuffixOf s.data

/-- Split a character list on a separator, keeping empty groups (the
grouping underlying Rust `str::split`/`rsplit`). -/
def splitChar (sep : Char) : List Char → List (List Char)
  | [] => [[]]
  | c :: cs =>
    let r := splitChar sep cs
    if c = sep then [] :: r
    else
      match r with
      | [] => [[c]]
      | g :: gs => (c :: g) :: gs

/-- `TorrentFile::name` from `src/realdebrid.rs`:
`path.rsplit('/').next().unwrap_or(&path)` — the part after the last
slash. -/
def fileName (f : TorrentFile) : String :=
  ⟨(splitChar '/' f.path.data).getLastD f.path.data⟩

/-- The per-file filter of the `TorrentFiles` arm: lowercased name ends
in a video or archive extension, or the file exceeds 50,000,000 bytes. -/
def isUsefulFile (f : TorrentFile) : Bool :=
  let nameLower := lowerString (fileName f)
  videoExts.any (fun ext => strEndsWith nameLower ext) ||
    archiveExts.any (fun ext => strEndsWith nameLower ext) ||
    decide (f.bytes > 50000000)

/-- `handle_message` from `src/main.rs`.  `ddir` is the download
directory resolved from `DOWNLOAD_DIR` / the platform default, passed in
explicitly; `path.join` becomes string concatenation with `"/"`; the
`eprintln!` echo of the links is a pure side channel and not modelled. -/
def handleMessage (ddir : String) (app : App) : AppMessage → App
  | AppMessage.SearchResults results =>
    { app with
      results := results
      selected_index := 0
      scroll_offset := 0
      status := toString results.length ++ " results found"
      mode := AppMode.Results }
  | AppMessage.SearchError e =>
    { app with status := "Search error: " ++ e, mode := AppMode.Error e }
  | AppMessage.TorrentFiles tid files =>
    let useful := files.filter isUsefulFile
    let shown := if useful.isEmpty then files else useful
    { app with
      torrent_id := some tid
      files := shown
      file_cursor := 0
      file_scroll_offset := 0
      selected_files :=
        match shown with
        | [f] => {f.id}
        | _ => ∅
      status := toString shown.length ++ " files in torrent"
      mode := AppMode.FileSelect }
  | AppMessage.TorrentError e =>
    { app with status := "Torrent error: " ++ e, mode := AppMode.Error e }
  | AppMessage.DownloadLinks links =>
    let newDownloads := links.map (fun fp =>
      { url := fp.2, filename := fp.1, dest_path := ddir ++ "/" ++ fp.1,
        status := DownloadStatus.Pending, total_bytes := 0,
        downloaded_bytes := 0, speed := 0 : Download })
    { app with
      downloads := app.downloads ++ newDownloads
      status := toString (app.downloads.length + newDownloads.length) ++
        " download(s) queued! Press 'd' to view"
      mode := AppMode.Results }
  | AppMessage.DownloadError e =>
    { app with status := "Download error: " ++ e, mode := AppMode.Error e }
  | AppMessage.StatusUpdate s =>
    { app with processing_status := s }
  | AppMessage.DownloadProgress i dl tot sp =>
    { app with downloads :=
        mapIdxFrom (fun j d =>
          if j = i then
            { d with
              downloaded_bytes := dl
              total_bytes := tot
              speed := sp
              status := DownloadStatus.Downloading }
          else d) 0 app.downloads }
  | AppMessage.DownloadComplete i =>
    { app with downloads :=
        mapIdxFrom (fun j d =>
          if j = i then { d with status := DownloadStatus.Completed }
          else d) 0 app.downloads }
  | AppMessage.DownloadFailed i e =>
    { app with downloads :=
        mapIdxFrom (fun j d =>
          if j = i then { d with status := DownloadStatus.Failed e }
          else d) 0 app.downloads }

/-- The key codes `handle_downloads_keys` distinguishes. -/
inductive DKey where
  | up
  | down
  | start
  | startAll
  | cancel
  | cancelAll
  | clear
  | back
  | other
deriving DecidableEq, Repr

/-- The data captured by one spawned `start_download` task: the cloned
URL and destination path and the positional `index` baked into every
message the task will send. -/
structure SpawnedTask where
  url : String
  dest_path : String
  index : Nat
deriving DecidableEq, Repr

/-- `matches!(status, Downloading | Pending)`: the records the purge
keeps and the cancel keys affect. -/
def isActive (s : DownloadStatus) : Bool :=
  match s with
  | DownloadStatus.Downloading => true
  | DownloadStatus.Pending => true
  | _ => false

/-- The tasks spawned by the start-all key: one per `Pending` record,
carrying that record's position. -/
def spawnPending : Nat → List Download → List SpawnedTask
  | _, [] => []
  | i, d :: ds =>
    if d.status = DownloadStatus.Pending then
      ⟨d.url, d.dest_path, i⟩ :: spawnPending (i + 1) ds
    else spawnPending (i + 1) ds

/-- `handle_downloads_keys` from `src/main.rs`: the state change plus
the list of download tasks spawned by the key. -/
def handle_downloads_keys (app : App) : DKey → App × List SpawnedTask
  | DKey.up =>
    ({ app with download_cursor :=
        if app.download_cursor > 0 then app.download_cursor - 1
        else app.download_cursor }, [])
  | DKey.down =>
    ({ app with download_cursor :=
        if app.download_cursor < app.downloads.length - 1 then
          app.download_cursor + 1
        else app.download_cursor }, [])
  | DKey.start =>
    match app.downloads[app.download_cursor]? with
    | some d =>
      if d.status = DownloadStatus.Pending then
        ({ app with downloads :=
            mapIdxFrom (fun j x =>
              if j = app.download_cursor then
                { x with status := DownloadStatus.Downloading }
              else x) 0 app.downloads },
         [⟨d.url, d.dest_path, app.download_cursor⟩])
      else (app, [])
    | none => (app, [])
  | DKey.startAll =>
    ({ app with downloads :=
        mapIdxFrom (fun _ d =>
          if d.status = DownloadStatus.Pending then
            { d with status := DownloadStatus.Downloading }
          else d) 0 app.downloads },
     spawnPending 0 app.downloads)
  | DKey.cancel =>
    match app.downloads[app.download_cursor]? with
    | some d =>
      if d.status = DownloadStatus.Downloading ∨ d.status = DownloadStatus.Pending then
        ({ app with downloads :=
            mapIdxFrom (fun j x =>
              if j = app.download_cursor then
                { x with status := DownloadStatus.Cancelled }
              else x) 0 app.downloads }, [])
      else (app, [])
    | none => (app, [])
  | DKey.cancelAll =>
    ({ app with downloads :=
        mapIdxFrom (fun _ d =>
          if d.status = DownloadStatus.Downloading ∨ d.status = DownloadStatus.Pending then
            { d with status := DownloadStatus.Cancelled }
          else d) 0 app.downloads }, [])
  | DKey.clear =>
    let remaining := app.downloads.filter (fun d => isActive d.status)
    ({ app with
       downloads := remaining
       download_cursor :=
        if app.download_cursor ≥ remaining.length then remaining.length - 1
        else app.download_cursor }, [])
  | DKey.back =>
    ({ app with mode :=
        if app.results.isEmpty then AppMode.Search else AppMode.Results }, [])
  | DKey.other => (app, [])

/-- The `AppMode::Error(_)` arm of `handle_key_event` (`src/main.rs`
lines 397-401): any key returns to `Search` and clears the status; the
key code is ignored. -/
def handleErrorKey (app : App) (_k : DKey) : App :=
  { app with mode := AppMode.Search, status := "" }

theorem mapIdxFrom_getElem? (f : Nat → α → α) :
    ∀ (l : List α) (s j : Nat),
      (mapIdxFrom f s l)[j]? = (l[j]?).map (f (s + j)) := by
  intro l
  induction l with
  | nil => intro s j; simp [mapIdxFrom]
  | cons x xs ih =>
    intro s j
    rcases j with _ | j
    · simp [mapIdxFrom]
    · simp only [mapIdxFrom, List.getElem?_cons_succ]
      rw [ih (s + 1) j]
      have harg : s + 1 + j = s + (j + 1) := by omega
      rw [harg]

theorem getElem?_some_mem : ∀ (l : List α) (j : Nat) (y : α),
    l[j]? = some y → y ∈ l := by
  intro l
  induction l with
  | nil => intro j y h; cases h
  | cons x xs ih =>
    intro j y h
    rcases j with _ | j
    · simp only [List.getElem?_cons_zero, Option.some.injEq] at h
      rw [h]
      exact List.mem_cons_self y xs
    · rw [List.getElem?_cons_succ] at h
      exact List.mem_cons_of_mem x (ih j y h)

theorem mem_mapIdxFrom (f : Nat → α → α) :
    ∀ (l : List α) (s : Nat) (x : α),
      x ∈ mapIdxFrom f s l → ∃ j y, y ∈ l ∧ x = f j y := by
  intro l
  induction l with
  | nil => intro s x h; cases h
  | cons z zs ih =>
    intro s x h
    rcases List.mem_cons.mp h with h | h
    · exact ⟨s, z, List.mem_cons_self z zs, h⟩
    · rcases ih (s + 1) x h with ⟨j, y, hy, hx⟩
      exact ⟨j, y, List.mem_cons_of_mem z hy, hx⟩

/-- The empty session state, used as the base of concrete scenarios. -/
def emptyApp : App :=
  { mode := AppMode.Search
    status := ""
    processing_status := ""
    results := []
    selected_index := 0
    scroll_offset := 0
    torrent_id := none
    files := []
    file_cursor := 0
    file_scroll_offset := 0
    selected_files := ∅
    downloads := []
    download_cursor := 0 }

/-- A concrete search result, used in scenarios. -/
def sampleResult : TorrentResult :=
  ⟨"The Matrix 1999", "700 MB", 42, 7, "magnet:x", "yts", none, none⟩

/-- A session sitting on the Results screen. -/
def resultsApp : App :=
  { emptyApp with
    mode := AppMode.Results
    results := [sampleResult] }

/-- C9: `Download::progress` is total — it returns 0 when the total
byte count is 0 (unknown total) instead of dividing by zero, and
`downloaded / total * 100` otherwise. -/
theorem download_progress_total (d : Download) :
    (d.total_bytes = 0 → Download.progress d = 0) ∧
    (d.total_bytes ≠ 0 →
      Download.progress d =
        ((d.downloaded_bytes : Rat) / (d.total_bytes : Rat)) * 100) := by
  constructor
  · intro h
    unfold Download.progress
    rw [if_pos h]
  · intro h
    unfold Download.progress
    rw [if_neg h]

/-- A concrete half-finished download. -/
def sampleDownload : Download :=
  ⟨"u", "f", "p", DownloadStatus.Downloading, 200, 50, 0⟩

theorem download_progress_total_witness :
    sampleDownload.total_bytes ≠ 0 ∧
    Download.progress sampleDownload =
      ((sampleDownload.downloaded_bytes : Rat) /
        (sampleDownload.total_bytes : Rat)) * 100 ∧
    Download.progress sampleDownload = 25 :=
  ⟨by decide, (download_progress_total sampleDownload).2 (by decide), by
    unfold Download.progress sampleDownload
    norm_num⟩

/-- C10: the `TorrentFiles` arm presents the sub-list of files whose
lowercased name ends in a video/archive extension or whose size exceeds
50,000,000 bytes, falling back to the full list when that filter is
empty — so the presented list is empty only when the torrent reported
no files — and a single presented file is pre-selected. -/
theorem torrentFiles_presentation (ddir : String) (app : App) (tid : String)
    (files : List TorrentFile) (hne : files ≠ []) :
    (handleMessage ddir app (AppMessage.TorrentFiles tid files)).files =
      (if (files.filter isUsefulFile).isEmpty then files
       else files.filter isUsefulFile) ∧
    (handleMessage ddir app (AppMessage.TorrentFiles tid files)).files ≠ [] ∧
    (∀ f, (handleMessage ddir app (AppMessage.TorrentFiles tid files)).files = [f] →
      (handleMessage ddir app (AppMessage.TorrentFiles tid files)).selected_files =
        {f.id}) ∧
    (handleMessage ddir app (AppMessage.TorrentFiles tid files)).torrent_id =
      some tid ∧
    (handleMessage ddir app (AppMessage.TorrentFiles tid files)).mode =
      AppMode.FileSelect := by
  refine ⟨rfl, ?_, ?_, rfl, rfl⟩
  · show (if (files.filter isUsefulFile).isEmpty then files
      else files.filter isUsefulFile) ≠ []
    by_cases h : (files.filter isUsefulFile).isEmpty
    · rw [if_pos h]; exact hne
    · rw [if_neg h]
      intro hcon
      rw [hcon] at h
      exact h rfl
  · intro f hf
    have hf' : (if (files.filter isUsefulFile).isEmpty then files
        else files.filter isUsefulFile) = [f] := hf
    show (match (if (files.filter isUsefulFile).isEmpty then files
        else files.filter isUsefulFile) with
      | [g] => ({g.id} : Finset Nat)
      | _ => ∅) = {f.id}
    rw [hf']

/-- A concrete video file, used in scenarios. -/
def sampleFile : TorrentFile := ⟨1, "dir/movie.mkv", 700000000, false⟩

theorem torrentFiles_presentation_witness :
    ([sampleFile] : List TorrentFile) ≠ [] ∧
    (handleMessage "dl" emptyApp (AppMessage.TorrentFiles "T1" [sampleFile])).files ≠ [] ∧
    (handleMessage "dl" emptyApp
        (AppMessage.TorrentFiles "T1" [sampleFile])).selected_files = {sampleFile.id} :=
  ⟨List.cons_ne_nil sampleFile [],
   (torrentFiles_presentation "dl" emptyApp "T1" [sampleFile]
      (List.cons_ne_nil sampleFile [])).2.1,
   (torrentFiles_presentation "dl" emptyApp "T1" [sampleFile]
      (List.cons_ne_nil sampleFile [])).2.2.1 sampleFile rfl⟩

/-- C8 counterexample: with the session on the Results screen, a
torrent error raises the error screen, and dismissing it lands on the
Search screen, not the prior Results context. -/
theorem errorDismiss_counterexample :
    resultsApp.mode = AppMode.Results ∧
    (handleMessage "dl" resultsApp (AppMessage.TorrentError "boom")).mode =
      AppMode.Error "boom" ∧
    (handleErrorKey (handleMessage "dl" resultsApp (AppMessage.TorrentError "boom"))
        DKey.other).mode = AppMode.Search ∧
    AppMode.Search ≠ AppMode.Results :=
  ⟨rfl, rfl, rfl, by decide⟩

/-- C8 amended: each error message raises the error screen, and any key
dismisses it to the Search context (with cleared status), regardless of
the prior interactive context. -/
theorem errorDismiss_returns_to_search (ddir : String) (app : App) (k : DKey)
    (e : String) :
    (handleErrorKey app k).mode = AppMode.Search ∧
    (handleErrorKey app k).status = "" ∧
    (handleMessage ddir app (AppMessage.SearchError e)).mode = AppMode.Error e ∧
    (handleMessage ddir app (AppMessage.TorrentError e)).mode = AppMode.Error e ∧
    (handleMessage ddir app (AppMessage.DownloadError e)).mode = AppMode.Error e :=
  ⟨rfl, rfl, rfl, rfl, rfl⟩

/-- A session holding a single already-cancelled download. -/
def cancelledApp : App :=
  { emptyApp with downloads := [⟨"u", "f", "p", DownloadStatus.Cancelled, 0, 0, 0⟩] }

/-- C1 counterexample: a record in the terminal `Cancelled` status is
moved back to `Downloading` by a subsequently applied `DownloadProgress`
inbox message addressed to its index — the terminal statuses are not
absorbing under inbox messages. -/
theorem downloadStatus_terminal_not_absorbing :
    (cancelledApp.downloads[0]?).map (fun d => d.status) =
      some DownloadStatus.Cancelled ∧
    ((handleMessage "dl" cancelledApp
        (AppMessage.DownloadProgress 0 5 10 1)).downloads[0]?).map
        (fun d => d.status) =
      some DownloadStatus.Downloading ∧
    DownloadStatus.Downloading ≠ DownloadStatus.Cancelled :=
  ⟨rfl, rfl, by decide⟩

theorem not_active_ne_pending {s : DownloadStatus} (h : isActive s = false) :
    s ≠ DownloadStatus.Pending := by
  intro hc
  rw [hc] at h
  simp [isActive] at h

theorem not_active_ne_downloading {s : DownloadStatus} (h : isActive s = false) :
    s ≠ DownloadStatus.Downloading := by
  intro hc
  rw [hc] at h
  simp [isActive] at h

/-- Indexed rewriting that either fixes an element or moves its status
away from `Pending` can never produce a `Pending` record that was not
already in the list. -/
theorem mem_mapIdxFrom_no_new_pending (l : List Download)
    (g : Nat → Download → Download)
    (hg : ∀ j y, g j y = y ∨ (g j y).status ≠ DownloadStatus.Pending) :
    ∀ d', d' ∈ mapIdxFrom g 0 l → d'.status = DownloadStatus.Pending → d' ∈ l := by
  intro d' hmem hpend
  rcases mem_mapIdxFrom g l 0 d' hmem with ⟨j, y, hy, hxy⟩
  rcases hg j y with h | h
  · rw [hxy, h]
    exact hy
  · exfalso
    rw [← hxy] at h
    exact h hpend

/-- C1 amended: controller operations never change a terminal-status
record (the purge removes it, changing no status), and no operation or
download message ever moves a record back to `Pending`; but the three
download inbox messages overwrite the addressed record's status
unconditionally — `DownloadProgress` sets `Downloading` even on a record
already in a terminal status (see the counterexample), `DownloadComplete`
sets `Completed`, `DownloadFailed` sets `Failed`. -/
theorem downloadStatus_transitions_amended (ddir : String) (app : App)
    (k : DKey) (i : Nat) (d : Download) :
    (k ≠ DKey.clear → app.downloads[i]? = some d → isActive d.status = false →
      (handle_downloads_keys app k).1.downloads[i]? = some d) ∧
    ((handle_downloads_keys app DKey.clear).1.downloads =
      app.downloads.filter (fun x => isActive x.status)) ∧
    (app.downloads[i]? = some d →
      (∀ dl tot sp,
        (handleMessage ddir app
            (AppMessage.DownloadProgress i dl tot sp)).downloads[i]? =
          some { d with
                 downloaded_bytes := dl
                 total_bytes := tot
                 speed := sp
                 status := DownloadStatus.Downloading }) ∧
      ((handleMessage ddir app (AppMessage.DownloadComplete i)).downloads[i]? =
        some { d with status := DownloadStatus.Completed }) ∧
      (∀ e, (handleMessage ddir app (AppMessage.DownloadFailed i e)).downloads[i]? =
        some { d with status := DownloadStatus.Failed e })) ∧
    (∀ d', d' ∈ (handle_downloads_keys app k).1.downloads →
      d'.status = DownloadStatus.Pending → d' ∈ app.downloads) ∧
    (∀ j dl tot sp d',
      d' ∈ (handleMessage ddir app (AppMessage.DownloadProgress j dl tot sp)).downloads →
      d'.status = DownloadStatus.Pending → d' ∈ app.downloads) ∧
    (∀ j d',
      d' ∈ (handleMessage ddir app (AppMessage.DownloadComplete j)).downloads →
      d'.status = DownloadStatus.Pending → d' ∈ app.downloads) ∧
    (∀ j e d',
      d' ∈ (handleMessage ddir app (AppMessage.DownloadFailed j e)).downloads →
      d'.status = DownloadStatus.Pending → d' ∈ app.downloads) := by
  refine ⟨?_, rfl, ?_, ?_, ?_, ?_, ?_⟩
  · -- (A) non-purge operations leave terminal records untouched
    intro hk hi hterm
    cases k with
    | up => exact hi
    | down => exact hi
    | back => exact hi
    | other => exact hi
    | clear => exact absurd rfl hk
    | start =>
      show (match app.downloads[app.download_cursor]? with
        | some d0 =>
          if d0.status = DownloadStatus.Pending then
            ({ app with downloads :=
                mapIdxFrom (fun j x =>
                  if j = app.download_cursor then
                    { x with status := DownloadStatus.Downloading }
                  else x) 0 app.downloads },
             [(⟨d0.url, d0.dest_path, app.download_cursor⟩ : SpawnedTask)])
          else (app, [])
        | none => (app, [])).1.downloads[i]? = some d
      rcases hc : app.downloads[app.download_cursor]? with _ | d0
      · exact hi
      · dsimp only
        by_cases hp : d0.status = DownloadStatus.Pending
        · rw [if_pos hp]
          dsimp only
          by_cases hic : i = app.download_cursor
          · exfalso
            rw [hic] at hi
            rw [hi] at hc
            have hd : d = d0 := by
              cases hc
              rfl
            rw [← hd] at hp
            exact not_active_ne_pending hterm hp
          · rw [mapIdxFrom_getElem?, hi]
            simp only [Option.map_some', Nat.zero_add]
            rw [if_neg hic]
        · rw [if_neg hp]
          exact hi
    | cancel =>
      show (match app.downloads[app.download_cursor]? with
        | some d0 =>
          if d0.status = DownloadStatus.Downloading ∨
              d0.status = DownloadStatus.Pending then
            ({ app with downloads :=
                mapIdxFrom (fun j x =>
                  if j = app.download_cursor then
                    { x with status := DownloadStatus.Cancelled }
                  else x) 0 app.downloads }, [])
          else (app, [])
        | none => (app, [])).1.downloads[i]? = some d
      rcases hc : app.downloads[app.download_cursor]? with _ | d0
      · exact hi
      · dsimp only
        by_cases hp : d0.status = DownloadStatus.Downloading ∨
            d0.status = DownloadStatus.Pending
        · rw [if_pos hp]
          dsimp only
          by_cases hic : i = app.download_cursor
          · exfalso
            rw [hic] at hi
            rw [hi] at hc
            have hd : d = d0 := by
              cases hc
              rfl
            rw [← hd] at hp
            rcases hp with hp | hp
            · exact not_active_ne_downloading hterm hp
            · exact not_active_ne_pending hterm hp
          · rw [mapIdxFrom_getElem?, hi]
            simp only [Option.map_some', Nat.zero_add]
            rw [if_neg hic]
        · rw [if_neg hp]
          exact hi
    | startAll =>
      show (mapIdxFrom (fun _ x =>
        if x.status = DownloadStatus.Pending then
          { x with status := DownloadStatus.Downloading }
        else x) 0 app.downloads)[i]? = some d
      rw [mapIdxFrom_getElem?, hi]
      simp only [Option.map_some']
      rw [if_neg (not_active_ne_pending hterm)]
    | cancelAll =>
      show (mapIdxFrom (fun _ x =>
        if x.status = DownloadStatus.Downloading ∨
            x.status = DownloadStatus.Pending then
          { x with status := DownloadStatus.Cancelled }
        else x) 0 app.downloads)[i]? = some d
      rw [mapIdxFrom_getElem?, hi]
      simp only [Option.map_some']
      rw [if_neg]
      intro hcon
      rcases hcon with h | h
      · exact not_active_ne_downloading hterm h
      · exact not_active_ne_pending hterm h
  · -- (B) the three download messages overwrite the addressed record
    intro hi
    refine ⟨?_, ?_, ?_⟩
    · intro dl tot sp
      show (mapIdxFrom (fun j x =>
        if j = i then
          { x with
            downloaded_bytes := dl
            total_bytes := tot
            speed := sp
            status := DownloadStatus.Downloading }
        else x) 0 app.downloads)[i]? = _
      rw [mapIdxFrom_getElem?, hi]
      simp
    · show (mapIdxFrom (fun j x =>
        if j = i then { x with status := DownloadStatus.Completed }
        else x) 0 app.downloads)[i]? = _
      rw [mapIdxFrom_getElem?, hi]
      simp
    · intro e
      show (mapIdxFrom (fun j x =>
        if j = i then { x with status := DownloadStatus.Failed e }
        else x) 0 app.downloads)[i]? = _
      rw [mapIdxFrom_getElem?, hi]
      simp
  · -- (C) controller operations create no new Pending record
    intro d' hmem hpend
    cases k with
    | up => exact hmem
    | down => exact hmem
    | back => exact hmem
    | other => exact hmem
    | clear => exact (List.mem_filter.mp hmem).1
    | start =>
      revert hmem
      show d' ∈ (match app.downloads[app.download_cursor]? with
        | some d0 =>
          if d0.status = DownloadStatus.Pending then
            ({ app with downloads :=
                mapIdxFrom (fun j x =>
                  if j = app.download_cursor then
                    { x with status := DownloadStatus.Downloading }
                  else x) 0 app.downloads },
             [(⟨d0.url, d0.dest_path, app.download_cursor⟩ : SpawnedTask)])
          else (app, [])
        | none => (app, [])).1.downloads → d' ∈ app.downloads
      rcases hc : app.downloads[app.download_cursor]? with _ | d0
      · exact fun hmem => hmem
      · dsimp only
        by_cases hp : d0.status = DownloadStatus.Pending
        · rw [if_pos hp]
          intro hmem
          refine mem_mapIdxFrom_no_new_pending app.downloads _ ?_ d' hmem hpend
          intro j y
          by_cases hj : j = app.download_cursor
          · right
            rw [if_pos hj]
            simp
          · left
            rw [if_neg hj]
        · rw [if_neg hp]
          exact fun hmem => hmem
    | cancel =>
      revert hmem
      show d' ∈ (match app.downloads[app.download_cursor]? with
        | some d0 =>
          if d0.status = DownloadStatus.Downloading ∨
              d0.status = DownloadStatus.Pending then
            ({ app with downloads :=
                mapIdxFrom (fun j x =>
                  if j = app.download_cursor then
                    { x with status := DownloadStatus.Cancelled }
                  else x) 0 app.downloads }, [])
          else (app, [])
        | none => (app, [])).1.downloads → d' ∈ app.downloads
      rcases hc : app.downloads[app.download_cursor]? with _ | d0
      · exact fun hmem => hmem
      · dsimp only
        by_cases hp : d0.status = DownloadStatus.Downloading ∨
            d0.status = DownloadStatus.Pending
        · rw [if_pos hp]
          intro hmem
          refine mem_mapIdxFrom_no_new_pending app.downloads _ ?_ d' hmem hpend
          intro j y
          by_cases hj : j = app.download_cursor
          · right
            rw [if_pos hj]
            simp
          · left
            rw [if_neg hj]
        · rw [if_neg hp]
          exact fun hmem => hmem
    | startAll =>
      refine mem_mapIdxFrom_no_new_pending app.downloads _ ?_ d' hmem hpend
      intro j y
      by_cases hy : y.status = DownloadStatus.Pending
      · right
        rw [if_pos hy]
        simp
      · left
        rw [if_neg hy]
    | cancelAll =>
      refine mem_mapIdxFrom_no_new_pending app.downloads _ ?_ d' hmem hpend
      intro j y
      by_cases hy : y.status = DownloadStatus.Downloading ∨
          y.status = DownloadStatus.Pending
      · right
        rw [if_pos hy]
        simp
      · left
        rw [if_neg hy]
  · -- (C) progress messages create no new Pending record
    intro j dl tot sp d' hmem hpend
    refine mem_mapIdxFrom_no_new_pending app.downloads _ ?_ d' hmem hpend
    intro j' y
    by_cases hj : j' = j
    · right
      rw [if_pos hj]
      simp
    · left
      rw [if_neg hj]
  · -- (C) completion messages create no new Pending record
    intro j d' hmem hpend
    refine mem_mapIdxFrom_no_new_pending app.downloads _ ?_ d' hmem hpend
    intro j' y
    by_cases hj : j' = j
    · right
      rw [if_pos hj]
      simp
    · left
      rw [if_neg hj]
  · -- (C) failure messages create no new Pending record
    intro j e d' hmem hpend
    refine mem_mapIdxFrom_no_new_pending app.downloads _ ?_ d' hmem hpend
    intro j' y
    by_cases hj : j' = j
    · right
      rw [if_pos hj]
      simp
    · left
      rw [if_neg hj]

theorem downloadStatus_transitions_amended_witness :
    cancelledApp.downloads[0]? =
      some ⟨"u", "f", "p", DownloadStatus.Cancelled, 0, 0, 0⟩ ∧
    DKey.cancel ≠ DKey.clear ∧
    isActive DownloadStatus.Cancelled = false ∧
    (handle_downloads_keys cancelledApp DKey.cancel).1.downloads[0]? =
      some ⟨"u", "f", "p", DownloadStatus.Cancelled, 0, 0, 0⟩ :=
  ⟨rfl, by decide, rfl,
   (downloadStatus_transitions_amended "dl" cancelledApp DKey.cancel 0
      ⟨"u", "f", "p", DownloadStatus.Cancelled, 0, 0, 0⟩).1 (by decide) rfl rfl⟩

/-! ## The message-misrouting scenario (claim C6)

Messages from a download task carry the positional `index` captured at
spawn time; the purge key shifts positions.  The following concrete trace
starts download A (its task captures index 0), cancels A, purges the
list (B slides to index 0), and then applies the progress message A's
task sends: it lands on record B. -/

/-- Download record A of the misrouting scenario. -/
def dlA : Download := ⟨"uA", "A.bin", "pA", DownloadStatus.Pending, 0, 0, 0⟩

/-- Download record B of the misrouting scenario. -/
def dlB : Download := ⟨"uB", "B.bin", "pB", DownloadStatus.Pending, 0, 0, 0⟩

/-- Scenario start: both records queued, cursor on A. -/
def c6App0 : App := { emptyApp with downloads := [dlA, dlB] }

/-- After pressing start on A. -/
def c6App1 : App := (handle_downloads_keys c6App0 DKey.start).1

/-- The task spawned for A, with its captured url/path/index. -/
def c6TaskA : List SpawnedTask := (handle_downloads_keys c6App0 DKey.start).2

/-- After cancelling A. -/
def c6App2 : App := (handle_downloads_keys c6App1 DKey.cancel).1

/-- After purging terminal entries ('x'): only B remains, at index 0. -/
def c6App3 : App := (handle_downloads_keys c6App2 DKey.clear).1

/-- After applying the progress message from A's still-running task
(index 0, as captured at spawn). -/
def c6App4 : App := handleMessage "dl" c6App3 (AppMessage.DownloadProgress 0 99 1000 2)

/-- C6 failing trace: the task spawned for record A captured index 0;
after the purge, index 0 names record B; A's task's progress message is
applied to B, setting B's progress fields and status — a message mutates
a record other than the one whose task produced it. -/
theorem downloadMessage_misrouted_after_purge :
    c6TaskA = [⟨"uA", "pA", 0⟩] ∧
    c6App3.downloads.map (fun d => d.url) = ["uB"] ∧
    c6App4.downloads[0]? =
      some ⟨"uB", "B.bin", "pB", DownloadStatus.Downloading, 1000, 99, 2⟩ ∧
    "uB" ≠ "uA" :=
  ⟨rfl, rfl, rfl, by decide⟩

/-! ## The download task (`start_download`, `src/main.rs`)

The task's interactions with the outside world are oracles: `response`
is the outcome of the HTTP GET (content length and the stream of chunk
read outcomes, a chunk being represented by its byte count), `createRes`
the outcome of creating the destination file, `writeRes n` the outcome
of writing the n-th chunk, `tick n` whether at least 100 ms have elapsed
at the n-th chunk (the clock), and `syncRes` the outcome of the final
`sync_all`.  The task's visible behaviour is its event list: file writes
and the messages sent on the channel, in order. -/

/-- The oracle environment of one `start_download` task. -/
structure DlEnv where
  response : Except String (Option Nat × List (Except String Nat))
  createRes : Except String Unit
  writeRes : Nat → Except String Unit
  tick : Nat → Bool
  syncRes : Except String Unit

/-- One observable event of a download task: a chunk written to the
destination file, a `DownloadProgress` message, the successful durable
sync, a `DownloadComplete` message, or a `DownloadFailed` message. -/
inductive DlEv where
  | write (size : Nat)
  | progress (downloaded : Nat) (total : Nat)
  | synced
  | complete
  | failed (e : String)
deriving DecidableEq, Repr

/-- The terminal channel messages: `DownloadComplete` / `DownloadFailed`. -/
def isTerminalEv : DlEv → Bool
  | DlEv.complete => true
  | DlEv.failed _ => true
  | _ => false

/-- The chunk-copy loop of `start_download`: write each chunk, emit a
progress message when the 100 ms tick has elapsed, and on stream end
sync the file and send `DownloadComplete`; any chunk, write or sync
error sends `DownloadFailed` and stops. -/
def dlLoop (writeRes : Nat → Except String Unit) (tick : Nat → Bool)
    (syncRes : Except String Unit) (total : Nat) :
    Nat → Nat → List (Except String Nat) → List DlEv
  | _, _, [] =>
    match syncRes with
    | Except.error e => [DlEv.failed e]
    | Except.ok _ => [DlEv.synced, DlEv.complete]
  | n, downloaded, c :: cs =>
    match c with
    | Except.error e => [DlEv.failed e]
    | Except.ok sz =>
      match writeRes n with
      | Except.error e => [DlEv.failed e]
      | Except.ok _ =>
        DlEv.write sz ::
          (if tick n then
            DlEv.progress (downloaded + sz) total ::
              dlLoop writeRes tick syncRes total (n + 1) (downloaded + sz) cs
          else dlLoop writeRes tick syncRes total (n + 1) (downloaded + sz) cs)

/-- `start_download` from `src/main.rs`, as its event list: a failed GET
or file creation immediately reports failure; otherwise the chunk loop
runs with the declared content length (`content_length().unwrap_or(0)`). -/
def start_download (env : DlEnv) : List DlEv :=
  match env.response with
  | Except.error e => [DlEv.failed e]
  | Except.ok (clen, chunks) =>
    match env.createRes with
    | Except.error e => [DlEv.failed e]
    | Except.ok _ =>
      dlLoop env.writeRes env.tick env.syncRes (clen.getD 0) 0 0 chunks

theorem ne_nil_of_getLast? {l : List α} {t : α} (h : l.getLast? = some t) :
    l ≠ [] := by
  intro hc
  rw [hc] at h
  cases h

theorem getLast?_cons_ne_nil (x : α) {X : List α} (h : X ≠ []) :
    (x :: X).getLast? = X.getLast? := by
  cases X with
  | nil => exact absurd rfl h
  | cons y ys => rfl

theorem dropLast_cons_ne_nil (x : α) {X : List α} (h : X ≠ []) :
    (x :: X).dropLast = x :: X.dropLast := by
  cases X with
  | nil => exact absurd rfl h
  | cons y ys => rfl

theorem dlLoop_terminal (writeRes : Nat → Except String Unit)
    (tick : Nat → Bool) (syncRes : Except String Unit) (total : Nat) :
    ∀ (cs : List (Except String Nat)) (n downloaded : Nat),
      ((dlLoop writeRes tick syncRes total n downloaded cs).dropLast.all
        (fun e => !isTerminalEv e)) = true ∧
      ((∃ msg, (dlLoop writeRes tick syncRes total n downloaded cs).getLast? =
          some (DlEv.failed msg)) ∨
        ((dlLoop writeRes tick syncRes total n downloaded cs).getLast? =
            some DlEv.complete ∧
          syncRes = Except.ok () ∧
          (dlLoop writeRes tick syncRes total n downloaded cs).dropLast.getLast? =
            some DlEv.synced)) := by
  intro cs
  induction cs with
  | nil =>
    intro n downloaded
    unfold dlLoop
    rcases hs : syncRes with e | u
    · exact ⟨rfl, Or.inl ⟨e, rfl⟩⟩
    · exact ⟨rfl, Or.inr ⟨rfl, rfl, rfl⟩⟩
  | cons c cs ih =>
    intro n downloaded
    unfold dlLoop
    rcases c with e | sz
    · exact ⟨rfl, Or.inl ⟨e, rfl⟩⟩
    · rcases hw : writeRes n with e | u
      · exact ⟨rfl, Or.inl ⟨e, rfl⟩⟩
      · dsimp only
        rcases ih (n + 1) (downloaded + sz) with ⟨hall, hterm⟩
        have hLne : dlLoop writeRes tick syncRes total (n + 1) (downloaded + sz) cs ≠ [] := by
          rcases hterm with ⟨msg, hL⟩ | ⟨hL, _, _⟩
          · exact ne_nil_of_getLast? hL
          · exact ne_nil_of_getLast? hL
        by_cases ht : tick n
        · rw [if_pos ht]
          have hXne : DlEv.progress (downloaded + sz) total ::
              dlLoop writeRes tick syncRes total (n + 1) (downloaded + sz) cs ≠ [] := by
            intro hc
            cases hc
          rw [dropLast_cons_ne_nil (DlEv.write sz) hXne,
            dropLast_cons_ne_nil (DlEv.progress (downloaded + sz) total) hLne,
            getLast?_cons_ne_nil (DlEv.write sz) hXne,
            getLast?_cons_ne_nil (DlEv.progress (downloaded + sz) total) hLne]
          refine ⟨by simp only [List.all_cons, hall]; rfl, ?_⟩
          rcases hterm with ⟨msg, hL⟩ | ⟨hL, hsync, hdrop⟩
          · exact Or.inl ⟨msg, hL⟩
          · have hdropne : (dlLoop writeRes tick syncRes total (n + 1)
                (downloaded + sz) cs).dropLast ≠ [] := ne_nil_of_getLast? hdrop
            refine Or.inr ⟨hL, hsync, ?_⟩
            rw [getLast?_cons_ne_nil (DlEv.write sz) ?hx,
              getLast?_cons_ne_nil (DlEv.progress (downloaded + sz) total) hdropne]
            · exact hdrop
            · intro hc
              cases hc
        · rw [if_neg ht]
          rw [dropLast_cons_ne_nil (DlEv.write sz) hLne,
            getLast?_cons_ne_nil (DlEv.write sz) hLne]
          refine ⟨by simp only [List.all_cons, hall]; rfl, ?_⟩
          rcases hterm with ⟨msg, hL⟩ | ⟨hL, hsync, hdrop⟩
          · exact Or.inl ⟨msg, hL⟩
          · have hdropne : (dlLoop writeRes tick syncRes total (n + 1)
                (downloaded + sz) cs).dropLast ≠ [] := ne_nil_of_getLast? hdrop
            refine Or.inr ⟨hL, hsync, ?_⟩
            rw [getLast?_cons_ne_nil (DlEv.write sz) hdropne]
            exact hdrop

/-- C7: every download task emits exactly one terminal message, as the
last event of its run — in particular, after a failure nothing more is
written to the destination file — and when that terminal message is
`DownloadComplete`, the durable sync succeeded and the sync immediately
precedes the completion message. -/
theorem start_download_terminal (env : DlEnv) :
    ((start_download env).dropLast.all (fun e => !isTerminalEv e)) = true ∧
    ((∃ msg, (start_download env).getLast? = some (DlEv.failed msg)) ∨
      ((start_download env).getLast? = some DlEv.complete ∧
        env.syncRes = Except.ok () ∧
        (start_download env).dropLast.getLast? = some DlEv.synced)) := by
  unfold start_download
  rcases hr : env.response with e | p
  · exact ⟨rfl, Or.inl ⟨e, rfl⟩⟩
  · rcases p with ⟨clen, chunks⟩
    rcases hc : env.createRes with e | u
    · exact ⟨rfl, Or.inl ⟨e, rfl⟩⟩
    · exact dlLoop_terminal env.writeRes env.tick env.syncRes (clen.getD 0)
        chunks 0 0

end LittleJohn
